import Mathlib

/-!
Verification of the QR-code document generator (`qr_code_generator.py`)
against its design specification.

The Python source is shallowly embedded: pure computations become Lean
functions on `Nat`/`Int`/`Rat`/`List`; real-valued page arithmetic is
idealised as exact rational arithmetic; fallible operations return
`Option`/`Except`; the concurrent fan-out is modelled as a map over the
input rows together with an arbitrary permutation standing for the
nondeterministic worker completion order.
-/

namespace QRGen

/-! ## Word-processor (docx) table assembly

Source lines 693–704: the sorted list of temporary image files is walked
in order; `current_row.append(temp_file)`, and once
`len(current_row) == args.wide` a one-row table with `args.wide` cells is
added to the document (one image per cell, in order) and `current_row` is
reset to `[]`.  Whatever remains in `current_row` at the end of the loop
is never added to the document. -/

/-- The docx table-assembly loop.  First list argument is the pending
`current_row` accumulator, second is the remaining image files; the result
is the list of emitted table rows. -/
def docxRows (wide : ℕ) : List α → List α → List (List α)
  | _, [] => []
  | cur, f :: rest =>
      if cur.length + 1 = wide then (cur ++ [f]) :: docxRows wide [] rest
      else docxRows wide (cur ++ [f]) rest

/-- The docx layout of a rendered-image sequence: the table rows emitted by
the assembly loop started with an empty `current_row`. -/
def docxLayout (files : List α) (wide : ℕ) : List (List α) :=
  docxRows wide [] files

theorem docxRows_length {wide : ℕ} (l : List α) :
    ∀ cur : List α, cur.length < wide →
      (docxRows wide cur l).length = (cur.length + l.length) / wide := by
  induction l with
  | nil =>
      intro cur hcur
      simp [docxRows, Nat.div_eq_of_lt hcur]
  | cons f rest ih =>
      intro cur hcur
      by_cases hfull : cur.length + 1 = wide
      · have hw : 0 < wide := by omega
        have := ih ([] : List α) (by simpa using hw)
        simp only [docxRows, if_pos hfull, List.length_cons, this,
          List.length_nil, Nat.zero_add]
        have : cur.length + (rest.length + 1) = rest.length + wide := by omega
        rw [this, Nat.add_div_right _ hw]
      · have hlt : cur.length + 1 < wide := by omega
        have ihc := ih (cur ++ [f]) (by simpa using hlt)
        have harg : (cur ++ [f]).length + rest.length =
            cur.length + (rest.length + 1) := by
          simp; omega
        rw [harg] at ihc
        simp only [docxRows, if_neg hfull, List.length_cons, ihc]

theorem docxRows_mem_length {wide : ℕ} (l : List α) :
    ∀ cur : List α, cur.length < wide →
      ∀ r ∈ docxRows wide cur l, r.length = wide := by
  induction l with
  | nil => intro cur _ r hr; simp [docxRows] at hr
  | cons f rest ih =>
      intro cur hcur r hr
      by_cases hfull : cur.length + 1 = wide
      · have hw : 0 < wide := by omega
        simp only [docxRows, if_pos hfull, List.mem_cons] at hr
        rcases hr with hr | hr
        · subst hr; simp [hfull]
        · exact ih ([] : List α) (by simpa using hw) r hr
      · have hlt : cur.length + 1 < wide := by omega
        simp only [docxRows, if_neg hfull] at hr
        exact ih (cur ++ [f]) (by simpa using hlt) r hr

theorem docxRows_flatten {wide : ℕ} (l : List α) :
    ∀ cur : List α, cur.length < wide →
      (docxRows wide cur l).flatten =
        (cur ++ l).take (wide * ((cur.length + l.length) / wide)) := by
  induction l with
  | nil =>
      intro cur hcur
      simp [docxRows, Nat.div_eq_of_lt hcur]
  | cons f rest ih =>
      intro cur hcur
      by_cases hfull : cur.length + 1 = wide
      · have hw : 0 < wide := by omega
        have ihz := ih ([] : List α) (by simpa using hw)
        simp only [docxRows, if_pos hfull, List.flatten_cons, ihz,
          List.nil_append, List.length_nil, Nat.zero_add, List.length_cons]
        have hnum : cur.length + (rest.length + 1) = rest.length + wide := by
          omega
        rw [hnum, Nat.add_div_right _ hw, Nat.mul_add, Nat.mul_one]
        have hlen : (cur ++ [f]).length = wide := by simp; omega
        have : cur ++ f :: rest = (cur ++ [f]) ++ rest := by simp
        rw [this, Nat.add_comm (wide * (rest.length / wide)) wide, ← hlen,
          List.take_append]
      · have hlt : cur.length + 1 < wide := by omega
        have ihc := ih (cur ++ [f]) (by simpa using hlt)
        have harg : (cur ++ [f]).length + rest.length =
            cur.length + (rest.length + 1) := by
          simp; omega
        have hlist : (cur ++ [f]) ++ rest = cur ++ f :: rest := by simp
        rw [harg, hlist] at ihc
        simp only [docxRows, if_neg hfull, ihc, List.length_cons]

/-- C1: word-processor (docx) path — for every `columns` (`wide`) in
`[1,10]` and every ordered sequence of rendered images, the document
contains exactly `⌊N / columns⌋` table rows, each holding exactly
`columns` images, in order (the flattened rows are precisely the first
`columns * ⌊N / columns⌋` images); the trailing `N % columns` images are
never added. -/
theorem docx_layout_claim {α : Type} (files : List α) (wide : ℕ)
    (h1 : 1 ≤ wide) (_h2 : wide ≤ 10) :
    (docxLayout files wide).length = files.length / wide ∧
    (∀ r ∈ docxLayout files wide, r.length = wide) ∧
    (docxLayout files wide).flatten =
      files.take (wide * (files.length / wide)) := by
  refine ⟨?_, ?_, ?_⟩
  · simpa using docxRows_length files ([] : List α) (by simpa using h1)
  · simpa using docxRows_mem_length files ([] : List α) (by simpa using h1)
  · simpa using docxRows_flatten files ([] : List α) (by simpa using h1)

/-- Witness for C1 at `wide = 3` on seven images: two full rows, the
seventh image dropped. -/
theorem docx_layout_claim_witness :
    (1 ≤ 3 ∧ 3 ≤ 10) ∧
    ((docxLayout [0, 1, 2, 3, 4, 5, 6] 3).length = 7 / 3 ∧
      (∀ r ∈ docxLayout [0, 1, 2, 3, 4, 5, 6] 3, r.length = 3) ∧
      (docxLayout [0, 1, 2, 3, 4, 5, 6] 3).flatten =
        [0, 1, 2, 3, 4, 5, 6].take (3 * (7 / 3))) :=
  ⟨⟨by decide, by decide⟩,
    docx_layout_claim [0, 1, 2, 3, 4, 5, 6] 3 (by decide) (by decide)⟩

/-! ## Labeled-image geometry and caption font size

Source lines 62–73 of `generate_single_qr`: a `1000`-pixel-wide base image
with height `int(base_width * 1.2)`, a caption font size
`min(60, int(base_width / max(len(text), 10)))`, and a caption band of
`int(base_height * 0.2)`.  Real arithmetic is idealised as exact rational
arithmetic (`1.2 = 6/5`, `0.2 = 1/5`); Python `int()` truncation of a
nonnegative value is the natural-number floor. -/

/-- Fixed base width of every labeled image (source line 63). -/
def base_width : ℕ := 1000

/-- `base_height = int(base_width * 1.2)` (source line 64). -/
def base_height : ℕ := (⌊(base_width : ℚ) * (6 / 5)⌋).toNat

/-- Caption font size (source line 72):
`font_size = min(60, int(base_width / max(len(text), 10)))`.  For these
operand magnitudes Python's binary floating-point division followed by
`int()` truncation agrees exactly with natural-number division. -/
def font_size (text : String) : ℕ :=
  min 60 (base_width / max text.length 10)

/-- C10: the caption font size equals
`min(60, ⌊1000 / max(len(text), 10)⌋)` (floor of exact division), never
exceeds `60`, and is `0` for any text longer than `1000` characters. -/
theorem font_size_claim (text : String) :
    font_size text = min 60 ⌊(1000 : ℚ) / (max text.length 10 : ℕ)⌋₊ ∧
    font_size text ≤ 60 ∧
    (1000 < text.length → font_size text = 0) := by
  refine ⟨?_, ?_, ?_⟩
  · rw [Nat.floor_div_nat]
    norm_num [font_size, base_width]
  · exact min_le_left _ _
  · intro hlong
    have hmax : max text.length 10 = text.length := by omega
    have hdiv : base_width / max text.length 10 = 0 := by
      rw [hmax]
      exact Nat.div_eq_of_lt (by simpa [base_width] using hlong)
    simp [font_size, hdiv]

/-- Witness for C10 on a 1001-character caption: the font size is `0`. -/
theorem font_size_claim_witness :
    1000 < (String.mk (List.replicate 1001 'a')).length ∧
    font_size (String.mk (List.replicate 1001 'a')) = 0 := by
  have h : 1000 < (String.mk (List.replicate 1001 'a')).length := by
    rw [String.length_mk, List.length_replicate]
    norm_num
  exact ⟨h, (font_size_claim _).2.2 h⟩

/-! ## PDF page geometry

Source lines 220–234 of `generate_pdf`: a reportlab `letter` page
(`612 × 792` points), one-inch (`72`-point) margins, cell width
`usable_width / wide` and cell height `qr_width * 1.2`. -/

/-- Letter page width in points (reportlab `letter`). -/
def LETTER_WIDTH : ℚ := 612

/-- Letter page height in points (reportlab `letter`). -/
def LETTER_HEIGHT : ℚ := 792

/-- One-inch margin in points (source line 228, reportlab `inch`). -/
def pdf_margin : ℚ := 72

/-- `usable_width = width - 2 * margin` (source line 229). -/
def usable_width : ℚ := LETTER_WIDTH - 2 * pdf_margin

/-- `qr_width = usable_width / wide` (source line 233). -/
def qr_width (wide : ℕ) : ℚ := usable_width / wide

/-- `qr_height = qr_width * 1.2` (source line 234). -/
def qr_height (wide : ℕ) : ℚ := qr_width wide * (6 / 5)

/-- C9: for every column count in `[1,10]`, the PDF cell width is the
usable page width (page width minus two one-inch margins) divided by the
column count, the cell height is exactly `1.2` (= `6/5`) times the cell
width, and this ratio equals the aspect ratio `base_height / base_width`
(`1200 / 1000`) of every labeled image, so aspect-ratio-preserving
placement introduces no distortion. -/
theorem pdf_cell_sizing_claim (wide : ℕ) (h1 : 1 ≤ wide) (_h2 : wide ≤ 10) :
    qr_width wide = (LETTER_WIDTH - 2 * pdf_margin) / wide ∧
    qr_height wide = (6 / 5) * qr_width wide ∧
    (base_height : ℚ) / (base_width : ℚ) = 6 / 5 ∧
    qr_height wide / qr_width wide = (base_height : ℚ) / (base_width : ℚ) := by
  have hbh : base_height = 1200 := by
    have h12 : (base_width : ℚ) * (6 / 5) = 1200 := by norm_num [base_width]
    rw [base_height, h12]
    norm_num
    rfl
  have hratio : (base_height : ℚ) / (base_width : ℚ) = 6 / 5 := by
    rw [hbh]
    norm_num [base_width]
  have hw0 : wide ≠ 0 := by omega
  have hqw : qr_width wide ≠ 0 := by
    simp only [qr_width, usable_width, LETTER_WIDTH, pdf_margin]
    norm_num
    exact_mod_cast hw0
  refine ⟨rfl, by rw [qr_height, mul_comm], hratio, ?_⟩
  rw [qr_height, hratio, mul_comm, mul_div_assoc, div_self hqw, mul_one]

/-- Witness for C9 at three columns. -/
theorem pdf_cell_sizing_claim_witness :
    (1 ≤ 3 ∧ 3 ≤ 10) ∧
    (qr_width 3 = (LETTER_WIDTH - 2 * pdf_margin) / 3 ∧
      qr_height 3 = (6 / 5) * qr_width 3 ∧
      (base_height : ℚ) / (base_width : ℚ) = 6 / 5 ∧
      qr_height 3 / qr_width 3 = (base_height : ℚ) / (base_width : ℚ)) :=
  ⟨⟨by decide, by decide⟩, pdf_cell_sizing_claim 3 (by decide) (by decide)⟩

/-! ## Renderer and concurrent fan-out

`generate_single_qr` (source lines 39–173) wraps the whole rendering body
(QR encoding, font lookup, image composition, file save) in one
`try`/`except`: on success it returns `(row_num, temp_file)`, on any
exception it returns `(row_num, None)`.  The rendering body itself is
external-library work and is abstracted as a parameter
`renderCore : row index → text → Except exception file`.

The fan-out (source lines 666–692 for docx, 731–757 for pdf) submits one
task per valid row, collects `(row_num, temp_file)` pairs as futures
complete in nondeterministic order (`results[row_num] = temp_file` only
when `temp_file` is not `None`, advancing the progress bar just then when
not verbose), and finally re-sorts:
`all_temp_files = [results[k] for k in sorted(results.keys())]`. -/

/-- The `try`/`except` wrapper of `generate_single_qr`: an exception from
the rendering body becomes `(row_num, None)` (source lines 47–173). -/
def generate_single_qr (renderCore : ℕ → String → Except String α)
    (row : ℕ × String) : ℕ × Option α :=
  (row.1, (renderCore row.1 row.2).toOption)

/-- The fan-out submits `generate_single_qr` once per valid row (source
lines 666–678 / 731–743); the outcomes, listed in input order. -/
def fan_out (renderCore : ℕ → String → Except String α)
    (rows : List (ℕ × String)) : List (ℕ × Option α) :=
  rows.map (generate_single_qr renderCore)

/-- The result-collection loop over completed futures (source lines
680–689 / 745–754): `if temp_file: results[row_num] = temp_file`, and the
progress bar is advanced inside that same branch when not verbose.
The argument lists the outcomes in completion order; the result is the
`results` mapping (as an association list in insertion order) together
with the number of progress increments. -/
def collect_results (verbose : Bool) :
    List (ℕ × Option α) → List (ℕ × α) × ℕ
  | [] => ([], 0)
  | (i, o) :: rest =>
      let tail := collect_results verbose rest
      match o with
      | some f => ((i, f) :: tail.1, (if verbose then 0 else 1) + tail.2)
      | none => tail

/-- The per-row outcomes that actually reach `results`: the successfully
rendered rows, keyed by original row index, in input order. -/
def render_successes (renderCore : ℕ → String → Except String α)
    (rows : List (ℕ × String)) : List (ℕ × α) :=
  (fan_out renderCore rows).filterMap fun p => p.2.map fun f => (p.1, f)

/-- Key order used at the join point (`sorted(results.keys())`). -/
def keyLe (a b : ℕ × α) : Prop := a.1 ≤ b.1

/-- Strict version of `keyLe`, for uniqueness of the sorted result. -/
def keyLt (a b : ℕ × α) : Prop := a.1 < b.1

instance : DecidableRel (keyLe (α := α)) := fun a b => Nat.decLe a.1 b.1

instance : IsTotal (ℕ × α) keyLe := ⟨fun a b => Nat.le_total a.1 b.1⟩

instance : IsTrans (ℕ × α) keyLe := ⟨fun _ _ _ h1 h2 => Nat.le_trans h1 h2⟩

instance : IsAntisymm (ℕ × α) (keyLt (α := α)) :=
  ⟨fun _ _ h1 h2 => absurd (Nat.lt_trans h1 h2) (Nat.lt_irrefl _)⟩

/-- The join point (source lines 692 / 757):
`all_temp_files = [results[row_num] for row_num in sorted(results.keys())]`
— the collected results reordered by ascending row index.  With distinct
keys, sorting the association list by key is the same reordering as
sorting the key set and looking each key up. -/
def join_order (results : List (ℕ × α)) : List (ℕ × α) :=
  results.insertionSort keyLe

/-- The image sequence handed to the layout stage. -/
def all_temp_files (results : List (ℕ × α)) : List α :=
  (join_order results).map Prod.snd

theorem collect_results_fst (verbose : Bool) (l : List (ℕ × Option α)) :
    (collect_results verbose l).1 =
      l.filterMap fun p => p.2.map fun f => (p.1, f) := by
  induction l with
  | nil => rfl
  | cons p rest ih =>
      obtain ⟨i, o⟩ := p
      cases o <;> simp [collect_results, ih, List.filterMap_cons]

theorem collect_results_snd (l : List (ℕ × Option α)) :
    (collect_results false l).2 = l.countP fun p => p.2.isSome := by
  induction l with
  | nil => rfl
  | cons p rest ih =>
      obtain ⟨i, o⟩ := p
      cases o <;> simp [collect_results, ih, List.countP_cons, Nat.add_comm]

theorem collect_results_snd_verbose (l : List (ℕ × Option α)) :
    (collect_results true l).2 = 0 := by
  induction l with
  | nil => rfl
  | cons p rest ih =>
      obtain ⟨i, o⟩ := p
      cases o <;> simp [collect_results, ih]

theorem render_successes_eq
    (renderCore : ℕ → String → Except String α) (rows : List (ℕ × String)) :
    render_successes renderCore rows =
      rows.filterMap fun r =>
        (renderCore r.1 r.2).toOption.map fun f => (r.1, f) := by
  rw [render_successes, fan_out, List.filterMap_map]
  rfl

theorem filterMap_keys_sublist (g : ℕ → String → Option α) :
    ∀ rows : List (ℕ × String),
      ((rows.filterMap fun r => (g r.1 r.2).map fun f => (r.1, f)).map
        Prod.fst).Sublist (rows.map Prod.fst) := by
  intro rows
  induction rows with
  | nil => simp
  | cons r rest ih =>
      rw [List.filterMap_cons]
      cases h : (g r.1 r.2).map fun f => (r.1, f) with
      | none => exact ih.trans (List.sublist_cons_self _ _)
      | some q =>
          obtain ⟨a, _, rfl⟩ := Option.map_eq_some'.mp h
          simpa using ih.cons₂ r.1

theorem render_successes_keys_sublist
    (renderCore : ℕ → String → Except String α) (rows : List (ℕ × String)) :
    ((render_successes renderCore rows).map Prod.fst).Sublist
      (rows.map Prod.fst) := by
  rw [render_successes_eq]
  exact filterMap_keys_sublist (fun i t => (renderCore i t).toOption) rows

theorem render_successes_nodup
    (renderCore : ℕ → String → Except String α) (rows : List (ℕ × String))
    (hnodup : (rows.map Prod.fst).Nodup) :
    ((render_successes renderCore rows).map Prod.fst).Nodup :=
  (render_successes_keys_sublist renderCore rows).nodup hnodup

theorem join_order_sorted_of_nodup (results : List (ℕ × α))
    (hnodup : (results.map Prod.fst).Nodup) :
    (join_order results).Pairwise keyLt := by
  have hle : (join_order results).Pairwise (keyLe (α := α)) :=
    List.sorted_insertionSort keyLe results
  have hperm : (join_order results).Perm results :=
    List.perm_insertionSort keyLe results
  have hnd : ((join_order results).map Prod.fst).Nodup :=
    (hperm.map Prod.fst).nodup_iff.mpr hnodup
  have hne : (join_order results).Pairwise fun a b => a.1 ≠ b.1 :=
    List.pairwise_map.mp hnd
  exact (hle.and hne).imp fun h => Nat.lt_of_le_of_ne h.1 h.2

theorem join_order_eq_of_perm (results₁ results₂ : List (ℕ × α))
    (hperm : results₁.Perm results₂)
    (hnodup : (results₂.map Prod.fst).Nodup) :
    join_order results₁ = join_order results₂ := by
  have hnodup₁ : (results₁.map Prod.fst).Nodup :=
    (hperm.map Prod.fst).nodup_iff.mpr hnodup
  have hp : (join_order results₁).Perm (join_order results₂) :=
    ((List.perm_insertionSort keyLe results₁).trans hperm).trans
      (List.perm_insertionSort keyLe results₂).symm
  exact List.eq_of_perm_of_sorted hp
    (join_order_sorted_of_nodup results₁ hnodup₁)
    (join_order_sorted_of_nodup results₂ hnodup)

/-- C4: order determinism after the concurrent fan-out.  For any input
row list with distinct indices and any completion order (any permutation
of the per-row outcomes), the joined sequence handed to layout is the
same: it is exactly the successfully rendered results, re-sorted into
strictly ascending original row index.  Hence two runs on the same input
agree regardless of worker scheduling. -/
theorem join_point_claim {α : Type} (renderCore : ℕ → String → Except String α)
    (rows : List (ℕ × String)) (completed : List (ℕ × Option α))
    (hnodup : (rows.map Prod.fst).Nodup)
    (hperm : completed.Perm (fan_out renderCore rows)) :
    join_order (collect_results false completed).1 =
      join_order (render_successes renderCore rows) ∧
    (join_order (collect_results false completed).1).Perm
      (render_successes renderCore rows) ∧
    ((join_order (collect_results false completed).1).map Prod.fst).Pairwise
      (· < ·) ∧
    all_temp_files (collect_results false completed).1 =
      all_temp_files (render_successes renderCore rows) := by
  have hnd : ((render_successes renderCore rows).map Prod.fst).Nodup :=
    render_successes_nodup renderCore rows hnodup
  have hpc : (collect_results false completed).1.Perm
      (render_successes renderCore rows) := by
    rw [collect_results_fst]
    exact hperm.filterMap _
  have heq : join_order (collect_results false completed).1 =
      join_order (render_successes renderCore rows) :=
    join_order_eq_of_perm _ _ hpc hnd
  refine ⟨heq, ?_, ?_, ?_⟩
  · exact (List.perm_insertionSort keyLe _).trans hpc
  · rw [heq]
    exact List.pairwise_map.mpr (join_order_sorted_of_nodup _ hnd)
  · rw [all_temp_files, all_temp_files, heq]

/-- Witness for C4: two completion orders of a two-row fan-out. -/
theorem join_point_claim_witness :
    (([((1 : ℕ), "b"), ((0 : ℕ), "a")].map Prod.fst).Nodup ∧
      [((1 : ℕ), some "g1"), ((0 : ℕ), some "g0")].Perm
        (fan_out (fun i _ => Except.ok ("g" ++ toString i))
          [((0 : ℕ), "a"), ((1 : ℕ), "b")])) ∧
    join_order (collect_results false
        [((1 : ℕ), some "g1"), ((0 : ℕ), some "g0")]).1 =
      join_order (render_successes
        (fun i _ => Except.ok ("g" ++ toString i))
        [((0 : ℕ), "a"), ((1 : ℕ), "b")]) := by
  have h1 : ([((1 : ℕ), "b"), ((0 : ℕ), "a")].map Prod.fst).Nodup := by decide
  have h2 : [((1 : ℕ), some "g1"), ((0 : ℕ), some "g0")].Perm
      (fan_out (fun i _ => Except.ok ("g" ++ toString i))
        [((0 : ℕ), "a"), ((1 : ℕ), "b")]) := by
    have : fan_out (fun i _ => Except.ok ("g" ++ toString i))
        [((0 : ℕ), "a"), ((1 : ℕ), "b")] =
        [((0 : ℕ), some "g0"), ((1 : ℕ), some "g1")] := rfl
    rw [this]
    exact List.Perm.swap _ _ _
  have hnodup : ([((0 : ℕ), "a"), ((1 : ℕ), "b")].map
      (Prod.fst (α := ℕ) (β := String))).Nodup := by decide
  exact ⟨⟨h1, h2⟩,
    (join_point_claim (fun i _ => Except.ok ("g" ++ toString i))
      [((0 : ℕ), "a"), ((1 : ℕ), "b")]
      [((1 : ℕ), some "g1"), ((0 : ℕ), some "g0")] hnodup h2).1⟩

theorem filter_ne_key_congr (g₁ g₂ : ℕ → String → Option α) (i : ℕ)
    (hagree : ∀ j t, j ≠ i → g₁ j t = g₂ j t) (rows : List (ℕ × String)) :
    ((rows.filterMap fun r => (g₁ r.1 r.2).map fun f => (r.1, f)).filter
        fun p => p.1 != i) =
      ((rows.filterMap fun r => (g₂ r.1 r.2).map fun f => (r.1, f)).filter
        fun p => p.1 != i) := by
  rw [List.filter_filterMap, List.filter_filterMap]
  refine List.filterMap_congr fun r _ => ?_
  by_cases hr : r.1 = i
  · cases h1 : g₁ r.1 r.2 <;> cases h2 : g₂ r.1 r.2 <;>
      simp [Option.filter_some, hr]
  · rw [hagree r.1 r.2 hr]

/-- C3: per-row failure isolation.  If the rendering body raises on row
`(i, text)` (modelled as `renderCore` returning an error), the
`try`/`except` wrapper returns `(i, None)`, the row is absent from the
collected results, and the results for all other rows are exactly what
they would be under any renderer agreeing outside row `i` — other rows
proceed unaffected. -/
theorem per_row_isolation_claim {α : Type}
    (renderCore renderCore₂ : ℕ → String → Except String α)
    (rows : List (ℕ × String)) (i : ℕ) (text e : String)
    (hmem : (i, text) ∈ rows)
    (hnodup : (rows.map Prod.fst).Nodup)
    (herr : renderCore i text = Except.error e)
    (hagree : ∀ j t, j ≠ i → renderCore j t = renderCore₂ j t) :
    generate_single_qr renderCore (i, text) = (i, none) ∧
    i ∉ (render_successes renderCore rows).map Prod.fst ∧
    (render_successes renderCore rows).filter (fun p => p.1 != i) =
      (render_successes renderCore₂ rows).filter (fun p => p.1 != i) := by
  refine ⟨?_, ?_, ?_⟩
  · simp [generate_single_qr, herr, Except.toOption]
  · intro hi
    rw [render_successes_eq] at hi
    obtain ⟨p, hp, hpi⟩ := List.mem_map.mp hi
    obtain ⟨r, hr, hrp⟩ := List.mem_filterMap.mp hp
    obtain ⟨f, hf, hfp⟩ := Option.map_eq_some'.mp hrp
    have hri : r.1 = i := by rw [← hpi, ← hfp]
    have hinj := (List.nodup_map_iff_inj_on (hnodup.of_map Prod.fst)).mp hnodup
    have hreq : r = (i, text) := hinj r hr (i, text) hmem (by simpa using hri)
    rw [hreq] at hf
    simp only [herr, Except.toOption] at hf
    exact Option.noConfusion hf
  · rw [render_successes_eq, render_successes_eq]
    exact filter_ne_key_congr (fun j t => (renderCore j t).toOption)
      (fun j t => (renderCore₂ j t).toOption) i
      (fun j t hj => congrArg Except.toOption (hagree j t hj)) rows

/-- Witness for C3: a two-row input where row `0` raises and row `1`
succeeds; changing what the renderer would have done on row `0` leaves
row `1`'s result untouched. -/
theorem per_row_isolation_claim_witness :
    ((((0 : ℕ), "boom") ∈ [((0 : ℕ), "boom"), ((1 : ℕ), "ok")]) ∧
      ([((0 : ℕ), "boom"), ((1 : ℕ), "ok")].map Prod.fst).Nodup ∧
      (fun j (_ : String) =>
        if j = 0 then (Except.error "overflow" : Except String String)
        else Except.ok "file1") 0 "boom" = Except.error "overflow" ∧
      (∀ j t, j ≠ 0 →
        (fun j (_ : String) =>
          if j = 0 then (Except.error "overflow" : Except String String)
          else Except.ok "file1") j t =
        (fun j (_ : String) =>
          if j = 0 then (Except.ok "recovered" : Except String String)
          else Except.ok "file1") j t)) ∧
    generate_single_qr
      (fun j (_ : String) =>
        if j = 0 then (Except.error "overflow" : Except String String)
        else Except.ok "file1") ((0 : ℕ), "boom") = ((0 : ℕ), none) := by
  have hagree : ∀ j t, j ≠ 0 →
      (fun j (_ : String) =>
        if j = 0 then (Except.error "overflow" : Except String String)
        else Except.ok "file1") j t =
      (fun j (_ : String) =>
        if j = 0 then (Except.ok "recovered" : Except String String)
        else Except.ok "file1") j t := by
    intro j t hj
    simp [hj]
  refine ⟨⟨by decide, by decide, rfl, hagree⟩, ?_⟩
  exact (per_row_isolation_claim _
    (fun j (_ : String) =>
      if j = 0 then (Except.ok "recovered" : Except String String)
      else Except.ok "file1")
    [((0 : ℕ), "boom"), ((1 : ℕ), "ok")] 0 "boom" "overflow"
    (by decide) (by decide) rfl hagree).1

/-- C5 counterexample: a single unit of work that fails.  The code
advances the progress counter only inside `if temp_file:` (source lines
684–687 / 749–752), so a failed row emits no progress signal — the count
stays `0` instead of reaching the number of completed units, `1`. -/
theorem progress_signal_cex :
    ¬ ((collect_results false [((0 : ℕ), (none : Option String))]).2 =
      ([((0 : ℕ), (none : Option String))] : List (ℕ × Option String)).length) := by
  decide

/-- C5 amended: a progress increment is emitted only when a unit of work
completed successfully (and only in non-verbose mode) — the progress
count equals the number of successful outcomes, not the number of
completed units; in verbose mode no progress counter is advanced at
all. -/
theorem progress_signal_amended {α : Type} (completed : List (ℕ × Option α)) :
    (collect_results false completed).2 =
      completed.countP (fun p => p.2.isSome) ∧
    (collect_results true completed).2 = 0 :=
  ⟨collect_results_snd completed, collect_results_snd_verbose completed⟩

/-! ## Spreadsheet ingestion

Source lines 450–543: `start_row = 2 if has_header else 1`; the scan
walks `range(start_row, max_row + 1)` over the selected column,
appending `(row - start_row, cell_value)` whenever `if cell_value:`
holds — Python truthiness, not a mere presence test — and aborts with an
error when the collected list is empty. -/

/-- A spreadsheet cell value as produced by the reader (`.value`):
absent (`None`), a string, an integer, or a boolean. -/
inductive CellValue
  | none
  | str (s : String)
  | int (n : ℤ)
  | boolean (b : Bool)
deriving DecidableEq

/-- Python truthiness of a cell value — the test `if cell_value:` at
source line 537.  `None`, the empty string, `0` and `False` are falsy. -/
def CellValue.truthy : CellValue → Bool
  | .none => false
  | .str s => !(s == "")
  | .int n => !(n == 0)
  | .boolean b => b

/-- A cell is non-empty when a value is present (it is not `None`). -/
def CellValue.nonEmpty : CellValue → Bool
  | .none => false
  | _ => true

/-- `start_row = 2 if has_header else 1` (source line 460). -/
def start_row (has_header : Bool) : ℕ := if has_header then 2 else 1

/-- The scanned row numbers, `range(start_row, max_row + 1)` (source
line 535). -/
def scanned_rows (max_row : ℕ) (has_header : Bool) : List ℕ :=
  List.range' (start_row has_header) (max_row + 1 - start_row has_header)

/-- The collection loop (source lines 534–538): for each scanned row,
append `(row - start_row, cell_value)` when the cell value is truthy. -/
def valid_rows (col : ℕ → CellValue) (max_row : ℕ) (has_header : Bool) :
    List (ℕ × CellValue) :=
  (scanned_rows max_row has_header).foldl
    (fun acc row =>
      if (col row).truthy then
        acc ++ [(row - start_row has_header, col row)]
      else acc) []

/-- The abort check (source lines 541–543): the run reports an error and
stops when no valid rows were collected. -/
def ingestion_aborts (col : ℕ → CellValue) (max_row : ℕ)
    (has_header : Bool) : Bool :=
  (valid_rows col max_row has_header).isEmpty

theorem valid_rows_foldl (col : ℕ → CellValue) (s : ℕ) (l : List ℕ) :
    ∀ acc : List (ℕ × CellValue),
      l.foldl
        (fun acc row =>
          if (col row).truthy then acc ++ [(row - s, col row)] else acc)
        acc =
      acc ++ (l.filter fun row => (col row).truthy).map
        fun row => (row - s, col row) := by
  induction l with
  | nil => intro acc; simp
  | cons r rest ih =>
      intro acc
      by_cases h : (col r).truthy
      · simp [List.foldl_cons, h, ih, List.filter_cons, List.append_assoc]
      · simp [List.foldl_cons, h, ih, List.filter_cons]

/-- C6 counterexample: a one-row, header-less sheet whose single cell
holds the integer `0`.  The cell is non-empty (a value is present), yet
truthiness filtering skips it: no `(index, text)` pair is produced for
it and the run aborts — refuting "an `(index, text)` pair for every
non-empty cell" and "aborts … when no such pair exists". -/
theorem ingestion_claim_cex :
    (CellValue.int 0).nonEmpty = true ∧
    valid_rows (fun _ => CellValue.int 0) 1 false = [] ∧
    ingestion_aborts (fun _ => CellValue.int 0) 1 false = true := by
  decide

/-- C6 amended: scanning the selected column from the start row (2 when
a header is present, 1 otherwise) through `max_row` yields
`(row - start_row, value)` for every cell whose value is Python-truthy —
`None`, `""`, `0` and `False` are all skipped, so non-empty but falsy
cells are dropped too — in ascending original row order (strictly
increasing indices), and the run aborts with an error exactly when no
truthy cell exists in the scanned range. -/
theorem ingestion_amended (col : ℕ → CellValue) (max_row : ℕ)
    (has_header : Bool) :
    valid_rows col max_row has_header =
      ((scanned_rows max_row has_header).filter
        fun row => (col row).truthy).map
        (fun row => (row - start_row has_header, col row)) ∧
    ((valid_rows col max_row has_header).map Prod.fst).Pairwise (· < ·) ∧
    (ingestion_aborts col max_row has_header = true ↔
      ∀ row ∈ scanned_rows max_row has_header, (col row).truthy = false) := by
  have hchar := valid_rows_foldl col (start_row has_header)
    (scanned_rows max_row has_header) []
  rw [List.nil_append] at hchar
  have hchar' : valid_rows col max_row has_header =
      ((scanned_rows max_row has_header).filter
        fun row => (col row).truthy).map
        (fun row => (row - start_row has_header, col row)) := hchar
  refine ⟨hchar', ?_, ?_⟩
  · rw [hchar', List.map_map]
    have hlt : ((scanned_rows max_row has_header).filter
        fun row => (col row).truthy).Pairwise (· < ·) :=
      List.Pairwise.sublist (List.filter_sublist _)
        (List.pairwise_lt_range' _ _)
    have hge : ∀ row ∈ (scanned_rows max_row has_header).filter
        (fun row => (col row).truthy), start_row has_header ≤ row := by
      intro row hrow
      have := (List.filter_sublist _).subset hrow
      obtain ⟨i, _, rfl⟩ := List.mem_range'.mp this
      omega
    refine List.pairwise_map.mpr ?_
    refine hlt.imp_of_mem ?_
    intro a b ha hb hab
    have h1 := hge a ha
    show a - start_row has_header < b - start_row has_header
    omega
  · rw [ingestion_aborts, hchar', List.isEmpty_iff, List.map_eq_nil_iff,
      List.filter_eq_nil_iff]
    simp

/-! ## Exit-status policy

Python's `exit(arg)` raises `SystemExit arg`; the process status is the
code, with `None` mapping to `0`.  `SystemExit` and `KeyboardInterrupt`
derive from `BaseException`, not `Exception`, so the `except Exception`
clause at source line 784 does not catch them.  The four pre-flight
validation failures (source lines 420–422, 428–430, 476–478, 541–543)
all call `exit()` with no argument; the cancellation paths call
`exit(0)`; the top-level `except Exception` handler calls `exit(1)`; and
a failure inside the generation stage is caught at lines 778–779,
reported, and not re-raised, so the script falls through to normal
termination. -/

/-- The exception kinds relevant to process termination. -/
inductive PyExc
  | systemExit (code : Option ℕ)
  | keyboardInterrupt
  | otherError
deriving DecidableEq

/-- The terminal events of a run, one per distinct termination path in
the source. -/
inductive RunOutcome
  | invalidInputFile
  | noExcelFiles
  | invalidColumn
  | noDataInColumn
  | lockRetryCancel
  | generationFailure
  | interrupted
  | unexpectedError
  | completed
deriving DecidableEq, Fintype

/-- The exception, if any, escaping the main `try` body for each
outcome: pre-flight failures raise `SystemExit None` via bare `exit()`
(lines 422, 430, 478, 543); the Ctrl+C path at the file-lock retry
prompt raises `SystemExit 0` via `exit(0)` (line 623); a generation
failure is swallowed at lines 778–779 and nothing escapes. -/
def run_exception : RunOutcome → Option PyExc
  | .invalidInputFile => some (.systemExit Option.none)
  | .noExcelFiles => some (.systemExit Option.none)
  | .invalidColumn => some (.systemExit Option.none)
  | .noDataInColumn => some (.systemExit Option.none)
  | .lockRetryCancel => some (.systemExit (some 0))
  | .generationFailure => Option.none
  | .interrupted => some .keyboardInterrupt
  | .unexpectedError => some .otherError
  | .completed => Option.none

/-- The top-level handlers (source lines 781–786) and the interpreter's
treatment of an escaping `SystemExit`: `except KeyboardInterrupt` calls
`exit(0)`, `except Exception` calls `exit(1)`, and a `SystemExit` passes
both clauses and ends the process with its own code (`None` ↦ `0`). -/
def top_level_handle : PyExc → ℕ
  | .systemExit c => c.getD 0
  | .keyboardInterrupt => 0
  | .otherError => 1

/-- The process exit status for each run outcome (no escaping exception
means normal termination, status `0`). -/
def exit_status (e : RunOutcome) : ℕ :=
  (run_exception e).elim 0 top_level_handle

/-- The fatal pre-flight failures named by the claim. -/
def is_preflight_fatal : RunOutcome → Bool
  | .invalidInputFile | .noExcelFiles | .invalidColumn | .noDataInColumn =>
      true
  | _ => false

/-- All fatal errors: pre-flight, generation-stage, or unexpected. -/
def is_fatal_error : RunOutcome → Bool
  | .invalidInputFile | .noExcelFiles | .invalidColumn | .noDataInColumn
  | .generationFailure | .unexpectedError => true
  | _ => false

/-- User-initiated cancellation paths. -/
def is_cancellation : RunOutcome → Bool
  | .lockRetryCancel | .interrupted => true
  | _ => false

/-- C7 counterexample: an invalid input file is a fatal pre-flight
error, but the code reports it and calls `exit()` with no argument —
`SystemExit None` — so the process terminates with status `0`, not the
non-zero status the claim requires. -/
theorem exit_status_claim_cex :
    is_fatal_error RunOutcome.invalidInputFile = true ∧
    exit_status RunOutcome.invalidInputFile = 0 := by
  decide

/-- C7 amended: every fatal pre-flight failure reports the error but
exits with status zero (bare `exit()`), a generation-stage failure is
swallowed and also ends with status zero, and user cancellation exits
with status zero; only an unexpected exception escaping the main body
outside the generation stage exits non-zero (status `1`). -/
theorem exit_status_amended :
    (∀ e, is_preflight_fatal e = true → exit_status e = 0) ∧
    exit_status RunOutcome.generationFailure = 0 ∧
    exit_status RunOutcome.unexpectedError = 1 ∧
    (∀ e, is_cancellation e = true → exit_status e = 0) ∧
    exit_status RunOutcome.completed = 0 := by
  refine ⟨?_, rfl, rfl, ?_, rfl⟩ <;> intro e he <;> revert he <;>
    cases e <;> decide

/-- Witness for C7's amended statement at the invalid-input-file
pre-flight failure. -/
theorem exit_status_amended_witness :
    is_preflight_fatal RunOutcome.invalidInputFile = true ∧
    exit_status RunOutcome.invalidInputFile = 0 :=
  ⟨by decide, exit_status_amended.1 RunOutcome.invalidInputFile (by decide)⟩

/-! ## PDF grid layout and pagination

Source lines 236–277 of `generate_pdf`: the cursor starts at
`x = margin`, `y = height - margin - qr_height` on page 1; each image is
drawn at the cursor, then `items_in_row` is incremented; on completing a
row (`items_in_row >= wide`) the cursor drops one cell height and
returns to the left margin, and if the new `y` is below the bottom
margin (`y < margin`) a new page is started with the cursor reset to the
top-left.  Every image in the list is drawn — the final partial row is
emitted, unlike the docx path. -/

/-- The drawing cursor of `generate_pdf`. -/
structure PdfState where
  x : ℚ
  y : ℚ
  items_in_row : ℕ
  page_count : ℕ

/-- Initial cursor (source lines 237–241). -/
def pdf_init (wide : ℕ) : PdfState :=
  { x := pdf_margin
    y := LETTER_HEIGHT - pdf_margin - qr_height wide
    items_in_row := 0
    page_count := 1 }

/-- Cursor update after drawing one image (source lines 253–272). -/
def pdf_next (wide : ℕ) (s : PdfState) : PdfState :=
  if s.items_in_row + 1 ≥ wide then
    if s.y - qr_height wide < pdf_margin then
      { x := pdf_margin
        y := LETTER_HEIGHT - pdf_margin - qr_height wide
        items_in_row := 0
        page_count := s.page_count + 1 }
    else
      { x := pdf_margin
        y := s.y - qr_height wide
        items_in_row := 0
        page_count := s.page_count }
  else
    { x := s.x + qr_width wide
      y := s.y
      items_in_row := s.items_in_row + 1
      page_count := s.page_count }

/-- The page and position at which an image is drawn
(source lines 244–251: `c.drawImage(temp_file, x, y, ...)`). -/
def pdf_place (s : PdfState) : ℕ × ℚ × ℚ :=
  (s.page_count, s.x, s.y)

/-- The placement loop of `generate_pdf` (source lines 242–272): each
image is drawn at the current cursor, which is then advanced. -/
def pdf_placements (wide : ℕ) : List α → PdfState → List (ℕ × ℚ × ℚ)
  | [], _ => []
  | _ :: rest, s => pdf_place s :: pdf_placements wide rest (pdf_next wide s)

/-- `generate_pdf` on the ordered rendered-image files: the sequence of
(page, x, y) placements, starting from the top-left of page 1. -/
def generate_pdf (files : List α) (wide : ℕ) : List (ℕ × ℚ × ℚ) :=
  pdf_placements wide files (pdf_init wide)

/-- The claim's characterisation of one cursor step as observed through
consecutive placements `p` (image `i`) and `q` (image `i + 1`): the page
advances by at most one; it advances exactly when image `i` completed a
row and the next row would fall below the bottom margin; and on a page
advance the cursor is reset to the top-left margin. -/
def pdf_step_spec (wide : ℕ) (p q : ℕ × ℚ × ℚ) (i : ℕ) : Prop :=
  (q.1 = p.1 + 1 ∨ q.1 = p.1) ∧
  (q.1 = p.1 + 1 ↔
    ((i + 1) % wide = 0 ∧ p.2.2 - qr_height wide < pdf_margin)) ∧
  (q.1 = p.1 + 1 →
    q.2.1 = pdf_margin ∧ q.2.2 = LETTER_HEIGHT - pdf_margin - qr_height wide)

theorem mod_succ_eq (i w : ℕ) (hw : 0 < w) :
    (i + 1) % w = if i % w + 1 = w then 0 else i % w + 1 := by
  have hdm := Nat.div_add_mod i w
  have hlt : i % w < w := Nat.mod_lt _ hw
  by_cases h : i % w + 1 = w
  · rw [if_pos h]
    have he : i + 1 = w * (i / w) + w := by omega
    rw [he, ← Nat.mul_succ, Nat.mul_mod_right]
  · rw [if_neg h]
    have he : i + 1 = w * (i / w) + (i % w + 1) := by omega
    rw [he, Nat.mul_add_mod]
    exact Nat.mod_eq_of_lt (by omega)

theorem countP_mod_range (w : ℕ) (hw : 1 ≤ w) :
    ∀ N, (List.range N).countP (fun i => decide (i % w = 0)) =
      (N + w - 1) / w := by
  intro N
  induction N with
  | zero =>
      simp only [List.range_zero, List.countP_nil]
      rw [Nat.div_eq_of_lt (by omega)]
  | succ N ih =>
      rw [List.range_succ, List.countP_append, ih]
      by_cases h : N % w = 0
      · obtain ⟨q, hq⟩ := Nat.dvd_of_mod_eq_zero h
        subst hq
        have e1 : w * q + 1 + w - 1 = w * q + w := by omega
        have e2 : w * q + w - 1 = w * q + (w - 1) := by omega
        have e3 : (w - 1) / w = 0 := Nat.div_eq_of_lt (by omega)
        rw [e1, e2, Nat.mul_add_div (by omega : 0 < w),
          Nat.mul_add_div (by omega : 0 < w), Nat.div_self (by omega), e3]
        simp [h]
      · have hr : 1 ≤ N % w := by omega
        have hrw : N % w < w := Nat.mod_lt _ (by omega)
        have hdm := Nat.div_add_mod N w
        have e1 : N + w - 1 = w * (N / w) + (N % w - 1 + w) := by omega
        have e2 : N + 1 + w - 1 = w * (N / w) + (N % w + w) := by omega
        have e3 : (N % w - 1) / w = 0 := Nat.div_eq_of_lt (by omega)
        have e4 : N % w / w = 0 := Nat.div_eq_of_lt (by omega)
        rw [e1, e2, Nat.mul_add_div (by omega : 0 < w),
          Nat.mul_add_div (by omega : 0 < w),
          Nat.add_div_right _ (by omega : 0 < w),
          Nat.add_div_right _ (by omega : 0 < w), e3, e4]
        simp [h]

theorem qr_width_ne_zero (wide : ℕ) (h1 : 1 ≤ wide) :
    qr_width wide ≠ 0 := by
  simp only [qr_width, usable_width, LETTER_WIDTH, pdf_margin]
  norm_num
  exact_mod_cast (by omega : wide ≠ 0)

theorem pdf_placements_eq_map (wide : ℕ) (l : List α) :
    ∀ s : PdfState, pdf_placements wide l s =
      (List.range l.length).map
        fun i => pdf_place ((pdf_next wide)^[i] s) := by
  induction l with
  | nil => intro s; rfl
  | cons a rest ih =>
      intro s
      rw [pdf_placements, List.length_cons, List.range_succ_eq_map,
        List.map_cons, List.map_map, ih (pdf_next wide s)]
      refine congrArg₂ _ rfl ?_
      refine List.map_congr_left fun i _ => ?_
      simp [Function.comp, Function.iterate_succ_apply]

theorem pdf_iter_items (wide : ℕ) (hw : 1 ≤ wide) (i : ℕ) :
    ((pdf_next wide)^[i] (pdf_init wide)).items_in_row = i % wide := by
  induction i with
  | zero => simp [pdf_init]
  | succ i ih =>
      have hw0 : 0 < wide := by omega
      have hlt : i % wide < wide := Nat.mod_lt _ hw0
      rw [Function.iterate_succ_apply', mod_succ_eq i wide hw0]
      by_cases hfull : ((pdf_next wide)^[i] (pdf_init wide)).items_in_row + 1 ≥ wide
      · have hfe : i % wide + 1 = wide := by omega
        rw [pdf_next, if_pos hfull, if_pos hfe]
        by_cases hpage : ((pdf_next wide)^[i] (pdf_init wide)).y -
            qr_height wide < pdf_margin
        · rw [if_pos hpage]
        · rw [if_neg hpage]
      · have hfe : ¬(i % wide + 1 = wide) := by omega
        rw [pdf_next, if_neg hfull, if_neg hfe, ih]

theorem pdf_iter_x (wide : ℕ) (hw : 1 ≤ wide) (i : ℕ) :
    ((pdf_next wide)^[i] (pdf_init wide)).x =
      pdf_margin + ((i % wide : ℕ) : ℚ) * qr_width wide := by
  induction i with
  | zero => simp [pdf_init]
  | succ i ih =>
      have hw0 : 0 < wide := by omega
      have hlt : i % wide < wide := Nat.mod_lt _ hw0
      have hitems := pdf_iter_items wide hw i
      rw [Function.iterate_succ_apply', mod_succ_eq i wide hw0]
      by_cases hfull : ((pdf_next wide)^[i] (pdf_init wide)).items_in_row + 1 ≥ wide
      · have hfe : i % wide + 1 = wide := by omega
        rw [pdf_next, if_pos hfull, if_pos hfe]
        by_cases hpage : ((pdf_next wide)^[i] (pdf_init wide)).y -
            qr_height wide < pdf_margin
        · rw [if_pos hpage]
          simp
        · rw [if_neg hpage]
          simp
      · have hfe : ¬(i % wide + 1 = wide) := by omega
        rw [pdf_next, if_neg hfull, if_neg hfe]
        show ((pdf_next wide)^[i] (pdf_init wide)).x + qr_width wide = _
        rw [ih]
        push_cast
        ring

theorem generate_pdf_length {α : Type} (files : List α) (wide : ℕ) :
    (generate_pdf files wide).length = files.length := by
  rw [generate_pdf, pdf_placements_eq_map]
  simp

theorem generate_pdf_get {α : Type} (files : List α) (wide : ℕ) (i : ℕ)
    (hi : i < (generate_pdf files wide).length) :
    (generate_pdf files wide).get ⟨i, hi⟩ =
      pdf_place ((pdf_next wide)^[i] (pdf_init wide)) := by
  have hlen : i < files.length := by
    rw [← generate_pdf_length files wide]
    exact hi
  rw [List.get_eq_getElem]
  have h : generate_pdf files wide =
      (List.range files.length).map
        fun j => pdf_place ((pdf_next wide)^[j] (pdf_init wide)) :=
    pdf_placements_eq_map wide files (pdf_init wide)
  rw [List.getElem_of_eq h, List.getElem_map, List.getElem_range]

/-- C2: PDF path — for every `columns` (`wide`) in `[1,10]` and every
ordered sequence of `N` successfully rendered images: all `N` images are
placed (the final partial row is emitted, none dropped); placement is
left-to-right, `x = margin + (i mod wide) · cell width`, so the images
drawn at the left margin are exactly the row starts and the grid has
`⌈N / wide⌉` rows; and between consecutive placements a new page is
started — with the cursor reset to the top-left margin — exactly when a
row was just completed and the next row would fall below the bottom
margin. -/
theorem pdf_layout_claim {α : Type} (files : List α) (wide : ℕ)
    (h1 : 1 ≤ wide) (_h2 : wide ≤ 10) :
    (generate_pdf files wide).length = files.length ∧
    (generate_pdf files wide).countP
        (fun p => decide (p.2.1 = pdf_margin)) =
      (files.length + wide - 1) / wide ∧
    (∀ i (hi : i < (generate_pdf files wide).length),
      ((generate_pdf files wide).get ⟨i, hi⟩).2.1 =
        pdf_margin + ((i % wide : ℕ) : ℚ) * qr_width wide) ∧
    (∀ i (hi1 : i + 1 < (generate_pdf files wide).length),
      pdf_step_spec wide
        ((generate_pdf files wide).get ⟨i, Nat.lt_of_succ_lt hi1⟩)
        ((generate_pdf files wide).get ⟨i + 1, hi1⟩) i) := by
  have hqw := qr_width_ne_zero wide h1
  refine ⟨generate_pdf_length files wide, ?_, ?_, ?_⟩
  · rw [generate_pdf, pdf_placements_eq_map, List.countP_map,
      ← countP_mod_range wide h1 files.length]
    refine List.countP_congr fun i _ => ?_
    simp only [Function.comp_apply, decide_eq_true_eq]
    show ((pdf_next wide)^[i] (pdf_init wide)).x = pdf_margin ↔ i % wide = 0
    rw [pdf_iter_x wide h1 i]
    constructor
    · intro hxe
      have h0 : ((i % wide : ℕ) : ℚ) * qr_width wide = 0 := by linarith
      rcases mul_eq_zero.mp h0 with hc | hq
      · exact_mod_cast hc
      · exact absurd hq hqw
    · intro hz
      rw [hz]
      simp
  · intro i hi
    rw [generate_pdf_get files wide i hi]
    exact pdf_iter_x wide h1 i
  · intro i hi1
    rw [generate_pdf_get files wide i (Nat.lt_of_succ_lt hi1),
      generate_pdf_get files wide (i + 1) hi1,
      Function.iterate_succ_apply']
    set s := (pdf_next wide)^[i] (pdf_init wide) with hs
    have hitems : s.items_in_row = i % wide := pdf_iter_items wide h1 i
    have hw0 : 0 < wide := by omega
    have hlt : i % wide < wide := Nat.mod_lt _ hw0
    have hmod := mod_succ_eq i wide hw0
    by_cases hfull : i % wide + 1 ≥ wide
    · have hfs : s.items_in_row + 1 ≥ wide := by rw [hitems]; exact hfull
      have hm0 : (i + 1) % wide = 0 := by
        rw [hmod, if_pos (by omega)]
      by_cases hpage : s.y - qr_height wide < pdf_margin
      · simp only [pdf_next]
        rw [if_pos hfs, if_pos hpage]
        exact ⟨Or.inl rfl, ⟨fun _ => ⟨hm0, hpage⟩, fun _ => rfl⟩,
          fun _ => ⟨rfl, rfl⟩⟩
      · simp only [pdf_next]
        rw [if_pos hfs, if_neg hpage]
        exact ⟨Or.inr rfl,
          ⟨fun hco => absurd hco (by simp [pdf_place]),
            fun hco => absurd hco.2 hpage⟩,
          fun hco => absurd hco (by simp [pdf_place])⟩
    · have hfs : ¬(s.items_in_row + 1 ≥ wide) := by rw [hitems]; exact hfull
      have hmne : ¬((i + 1) % wide = 0) := by
        rw [hmod, if_neg (by omega)]
        omega
      simp only [pdf_next]
      rw [if_neg hfs]
      exact ⟨Or.inr rfl,
        ⟨fun hco => absurd hco (by simp [pdf_place]),
          fun hco => absurd hco.1 hmne⟩,
        fun hco => absurd hco (by simp [pdf_place])⟩

/-- Witness for C2 at `wide = 3` on seven images: all seven are placed
in `⌈7/3⌉ = 3` grid rows. -/
theorem pdf_layout_claim_witness :
    (1 ≤ 3 ∧ 3 ≤ 10) ∧
    ((generate_pdf [0, 1, 2, 3, 4, 5, 6] 3).length =
        [0, 1, 2, 3, 4, 5, 6].length ∧
      (generate_pdf [0, 1, 2, 3, 4, 5, 6] 3).countP
          (fun p => decide (p.2.1 = pdf_margin)) =
        ([0, 1, 2, 3, 4, 5, 6].length + 3 - 1) / 3 ∧
      (∀ i (hi : i < (generate_pdf [0, 1, 2, 3, 4, 5, 6] 3).length),
        ((generate_pdf [0, 1, 2, 3, 4, 5, 6] 3).get ⟨i, hi⟩).2.1 =
          pdf_margin + ((i % 3 : ℕ) : ℚ) * qr_width 3) ∧
      (∀ i (hi1 : i + 1 < (generate_pdf [0, 1, 2, 3, 4, 5, 6] 3).length),
        pdf_step_spec 3
          ((generate_pdf [0, 1, 2, 3, 4, 5, 6] 3).get
            ⟨i, Nat.lt_of_succ_lt hi1⟩)
          ((generate_pdf [0, 1, 2, 3, 4, 5, 6] 3).get ⟨i + 1, hi1⟩) i)) :=
  ⟨⟨by decide, by decide⟩,
    pdf_layout_claim [0, 1, 2, 3, 4, 5, 6] 3 (by decide) (by decide)⟩

/-! ## QR encoding parameters

Source lines 48–56 of `generate_single_qr`:
`qrcode.QRCode(version=1, error_correction=ERROR_CORRECT_L, box_size=10,
border=4)` followed by `qr.add_data(str(cell_value))` and
`qr.make(fit=True)`.  The encoder is an external library; what the
source fixes is the constructor's parameter record and the `fit` flag
passed to `make`.  Per the library's contract, `fit=True` requests the
best-fitting symbol version starting from the requested one, so the
requested version is a minimum the encoder may raise when the text does
not fit, not a binding fixed version. -/

/-- Error-correction levels of the external encoder. -/
inductive ECLevel
  | low
  | medium
  | quartile
  | high
deriving DecidableEq

/-- The parameters of one encoding call: the `qrcode.QRCode(...)`
constructor arguments together with the `fit` flag given to `make`. -/
structure QREncodeCall where
  version : ℕ
  error_correction : ECLevel
  box_size : ℕ
  border : ℕ
  fit : Bool
deriving DecidableEq

/-- The encoding call issued for a row (source lines 49–56).  It depends
on neither the row number nor the cell text. -/
def qr_encode_call (_row_num : ℕ) (_cell_value : String) : QREncodeCall :=
  { version := 1
    error_correction := ECLevel.low
    box_size := 10
    border := 4
    fit := true }

/-- The claim's reading of a fixed, never-upgraded symbol version,
stated on the call parameters: auto-fitting must be off — only with
`fit=False` is the requested version binding for every input text. -/
def fixed_version_encoding (c : QREncodeCall) : Prop := c.fit = false

/-- C8 counterexample: the encoding call made for any row (shown here at
row `0`, text `"a"`) passes `fit=True`, so the encoder is asked to adopt
the best-fitting symbol version rather than hold version 1 fixed — the
"never retries or upgrades the symbol version" part of the claim fails
at the call site. -/
theorem qr_parameters_claim_cex :
    ¬ fixed_version_encoding (qr_encode_call 0 "a") := by
  intro h
  simp [fixed_version_encoding, qr_encode_call] at h

/-- C8 amended: every row's QR symbol is encoded with the same
input-independent parameters — error-correction level Low, box size 10,
border 4, and a requested minimum version of 1 with `fit=True` — so the
correction level, box size and border are fixed and never upgraded,
while the symbol version is only a minimum that auto-fit may raise for
texts exceeding its capacity. -/
theorem qr_parameters_amended (r₁ r₂ : ℕ) (t₁ t₂ : String) :
    qr_encode_call r₁ t₁ = qr_encode_call r₂ t₂ ∧
    (qr_encode_call r₁ t₁).error_correction = ECLevel.low ∧
    (qr_encode_call r₁ t₁).version = 1 ∧
    (qr_encode_call r₁ t₁).box_size = 10 ∧
    (qr_encode_call r₁ t₁).border = 4 ∧
    (qr_encode_call r₁ t₁).fit = true :=
  ⟨rfl, rfl, rfl, rfl, rfl, rfl⟩

end QRGen
